import Mathlib

/-!
Verification development for the spddwnld Telegram video-download bot
(src/bot/main.py and src/bot/downloader.py), shallowly embedded in Lean.

Conventions of the embedding:
* Python dicts keyed by strings are modelled as association lists where
  insertion conses a pair in front and lookup returns the first match
  (hence the most recent insertion wins, matching dict overwrite).
* Python ints are Lean Int; file sizes (os.path.getsize results) are Nat.
* Fallible collaborator calls (yt-dlp, os.path.getsize, Telegram upload)
  are modelled as explicit inputs describing their outcome for the run.
* The observable behaviour of a handler run is a trace of Action values
  (messages sent or edited, temp dirs created and removed, uploads).
-/

namespace Spddwnld

deriving instance DecidableEq for Except

/-- Association-list lookup: first match wins (model of Python dict get). -/
def dictGet {α : Type} : List (String × α) → String → Option α
  | [], _ => none
  | (k, v) :: rest, key => if k = key then some v else dictGet rest key

/-- Association-list insert: cons in front, so the newest binding shadows
older ones (model of Python dict assignment d[k] = v). -/
def dictSet {α : Type} (d : List (String × α)) (k : String) (v : α) :
    List (String × α) :=
  (k, v) :: d

/-- Build a dict from a list of pairs, later pairs overwriting earlier ones
(model of the Python dict comprehension over format_rows). -/
def dictOfPairs {α : Type} (l : List (String × α)) : List (String × α) :=
  l.foldl (fun d kv => dictSet d kv.1 kv.2) []

/-- Model of the RequestContext dataclass in src/bot/main.py: the session
record stored per token (source url, index-ordered selector list, and the
selector-to-label dict). -/
structure RequestContext where
  url : String
  selectors : List String
  labels : List (String × String)
  deriving DecidableEq

/-- The process-wide session store bot_data["requests"]: token to session. -/
abbrev Store := List (String × RequestContext)

/-- Model of the session-creation side of handle_url (src/bot/main.py lines
66-70): store[token] = RequestContext(url, [s for s,_ in rows], {s: l}). -/
def createSession (store : Store) (token url : String)
    (format_rows : List (String × String)) : Store :=
  dictSet store token
    ⟨url, format_rows.map Prod.fst, dictOfPairs format_rows⟩

/-- Outcome of resolving an inbound (token, index) selection. -/
inductive Resolution where
  | stale
  | chosen (selector : String) (label : String) (url : String)
  deriving DecidableEq

/-- Model of the resolver in on_download_click (src/bot/main.py lines
101-108): req = store.get(token); if not req or not (0 <= idx <
len(req.selectors)) report a stale session, else take selectors[idx] and
its label (labels.get(selector, default)) together with req.url. -/
def resolveSelection (store : Store) (token : String) (idx : Int) :
    Resolution :=
  match dictGet store token with
  | none => .stale
  | some req =>
    if h : 0 ≤ idx ∧ idx < (req.selectors.length : Int) then
      let sel := req.selectors.get ⟨idx.toNat, by omega⟩
      .chosen sel ((dictGet req.labels sel).getD "запрошенный формат") req.url
    else .stale

example :
    resolveSelection [("t", ⟨"u", ["s0", "s1"], [("s0", "l0"), ("s1", "l1")]⟩)]
      "t" 1 = .chosen "s1" "l1" "u" := by decide

example :
    resolveSelection [("t", ⟨"u", ["s0", "s1"], [("s0", "l0")]⟩)] "t" 2 =
      .stale := by decide

example :
    resolveSelection [("t", ⟨"u", ["s0", "s1"], [("s0", "l0")]⟩)] "t" (-1) =
      .stale := by decide

example : resolveSelection [] "t" 0 = .stale := by decide

/-! ### Decimal rendering of Python ints (model of str(h) in f-strings) -/

/-- The ASCII digit character for a value d < 10. -/
def digitChar (d : Nat) : Char := Char.ofNat (48 + d)

/-- Fuel-indexed digit-list builder: for n < fuel it yields the decimal
digits of n, most significant first. -/
def natReprAux : Nat → Nat → List Char
  | 0, _ => []
  | fuel + 1, n =>
    if n < 10 then [digitChar n]
    else natReprAux fuel (n / 10) ++ [digitChar (n % 10)]

/-- Decimal rendering of a natural number (model of Python str on a
non-negative int). -/
def natRepr (n : Nat) : String := ⟨natReprAux (n + 1) n⟩

/-- Decimal rendering of an integer (model of Python str on an int). -/
def intRepr : Int → String
  | .ofNat n => natRepr n
  | .negSucc n => "-" ++ natRepr (n + 1)

example : natRepr 1080 = "1080" := by decide
example : intRepr (-17) = "-17" := by decide

/-- Numeric value of an ASCII digit character. -/
def digitVal (c : Char) : Nat := c.toNat - 48

/-- Decimal value of a digit string, most significant digit first. -/
def decVal (cs : List Char) : Nat :=
  cs.foldl (fun a c => a * 10 + digitVal c) 0

theorem digitChar_toNat {d : Nat} (hd : d < 10) :
    (digitChar d).toNat = 48 + d := by
  interval_cases d <;> decide

theorem decVal_append (cs : List Char) (c : Char) :
    decVal (cs ++ [c]) = decVal cs * 10 + digitVal c := by
  simp [decVal, List.foldl_append]

theorem decVal_natReprAux : ∀ fuel n, n < fuel →
    decVal (natReprAux fuel n) = n := by
  intro fuel
  induction fuel with
  | zero => omega
  | succ fuel ih =>
    intro n hn
    by_cases h10 : n < 10
    · simp only [natReprAux, if_pos h10]
      simp [decVal, digitVal, digitChar_toNat h10]
    · simp only [natReprAux, if_neg h10]
      rw [decVal_append, ih (n / 10) (by omega),
        digitVal, digitChar_toNat (Nat.mod_lt n (by omega))]
      omega

theorem natRepr_injective : Function.Injective natRepr := by
  intro a b hab
  have h : natReprAux (a + 1) a = natReprAux (b + 1) b :=
    congrArg String.data hab
  have := decVal_natReprAux (a + 1) a (Nat.lt_succ_self a)
  rw [h, decVal_natReprAux (b + 1) b (Nat.lt_succ_self b)] at this
  omega

theorem natReprAux_ne_nil : ∀ fuel n, 0 < fuel → natReprAux fuel n ≠ [] := by
  intro fuel n hf
  cases fuel with
  | zero => omega
  | succ fuel =>
    by_cases h10 : n < 10 <;> simp [natReprAux, h10]

theorem natReprAux_digits : ∀ fuel n c, c ∈ natReprAux fuel n →
    48 ≤ c.toNat ∧ c.toNat ≤ 57 := by
  intro fuel
  induction fuel with
  | zero => intro n c hc; simp [natReprAux] at hc
  | succ fuel ih =>
    intro n c hc
    by_cases h10 : n < 10
    · simp only [natReprAux, if_pos h10, List.mem_singleton] at hc
      subst hc
      rw [digitChar_toNat h10]; omega
    · simp only [natReprAux, if_neg h10, List.mem_append,
        List.mem_singleton] at hc
      rcases hc with hc | hc
      · exact ih _ _ hc
      · subst hc
        rw [digitChar_toNat (Nat.mod_lt n (by omega))]
        omega

theorem string_ext {s t : String} (h : s.data = t.data) : s = t := by
  cases s; cases t; exact congrArg String.mk h

theorem data_append (s t : String) : (s ++ t).data = s.data ++ t.data := rfl

theorem natRepr_head_digit (n : Nat) :
    ∀ c ∈ (natRepr n).data, 48 ≤ c.toNat := by
  intro c hc
  exact (natReprAux_digits (n + 1) n c hc).1

theorem natRepr_data_ne_dash (n : Nat) (l : List Char) :
    (natRepr n).data ≠ '-' :: l := by
  intro h
  have hmem : '-' ∈ (natRepr n).data := by rw [h]; simp
  have h48 := natRepr_head_digit n '-' hmem
  have h45 : ('-' : Char).toNat = 45 := rfl
  omega

theorem intRepr_injective : Function.Injective intRepr := by
  intro a b hab
  match a, b with
  | .ofNat m, .ofNat n =>
    have h2 : natRepr m = natRepr n := hab
    exact congrArg Int.ofNat (natRepr_injective h2)
  | .negSucc m, .negSucc n =>
    have h : ('-' :: (natRepr (m + 1)).data) = '-' :: (natRepr (n + 1)).data := by
      have := congrArg String.data hab
      simpa [intRepr, data_append] using this
    have h2 : natRepr (m + 1) = natRepr (n + 1) :=
      string_ext (List.cons_eq_cons.mp h).2
    have h3 := natRepr_injective h2
    exact congrArg Int.negSucc (by omega)
  | .ofNat m, .negSucc n =>
    exfalso
    have h : (natRepr m).data = '-' :: (natRepr (n + 1)).data := by
      have := congrArg String.data hab
      simpa [intRepr, data_append] using this
    exact natRepr_data_ne_dash m _ h
  | .negSucc m, .ofNat n =>
    exfalso
    have h : (natRepr n).data = '-' :: (natRepr (m + 1)).data := by
      have := congrArg String.data hab
      simpa [intRepr, data_append] using this.symm
    exact natRepr_data_ne_dash n _ h

theorem intRepr_ne_nil (h : Int) : (intRepr h).data ≠ [] := by
  match h with
  | .ofNat n => exact natReprAux_ne_nil (n + 1) n (Nat.succ_pos n)
  | .negSucc n => simp [intRepr, data_append]

theorem intRepr_length_pos (h : Int) : 0 < (intRepr h).length := by
  have := intRepr_ne_nil h
  simp only [String.length]
  cases hne : (intRepr h).data with
  | nil => exact absurd hne this
  | cons c cs => simp

/-! ### Format Enumerator (src/bot/downloader.py) -/

/-- One yt-dlp stream descriptor, restricted to the fields the enumerator
reads: the vcodec tag and the height. A height that is absent or not an
int is modelled as none (the code checks isinstance(height, int)). -/
structure StreamFormat where
  vcodec : Option String
  height : Option Int
  deriving DecidableEq

/-- One thumbnail candidate, restricted to the fields _best_thumbnail
reads. -/
structure ThumbCand where
  url : Option String
  height : Option Int
  preference : Option Int
  deriving DecidableEq

/-- The extracted metadata dict, restricted to the keys the enumerator and
thumbnail picker read. An entirely empty info dict behaves like all fields
absent, which makes the early return for a falsy info in _best_thumbnail
extensionally redundant, so it is not modelled separately. -/
structure MediaInfo where
  thumbnail : Option String
  thumbnails : List ThumbCand
  formats : List StreamFormat
  deriving DecidableEq

/-- Truthiness test the code applies to a stream: f.get("vcodec") and
f.get("vcodec") != "none" (a missing or empty vcodec is falsy). -/
def vcodecOk (f : StreamFormat) : Bool :=
  match f.vcodec with
  | some v => v ≠ "" && v ≠ "none"
  | none => false

/-- The height contributed by one stream, if any. -/
def heightOk (f : StreamFormat) : Option Int :=
  if vcodecOk f then f.height else none

/-- Insert a value into a strictly descending list, keeping it strictly
descending and duplicate-free. Folding this over the collected heights
models building the Python set of heights and then sorted(-, reverse=True)
in one pass: the result is the unique strictly descending enumeration of
the distinct collected heights. -/
def insertDesc (x : Int) : List Int → List Int
  | [] => [x]
  | y :: ys =>
    if x > y then x :: y :: ys
    else if x = y then y :: ys
    else y :: insertDesc x ys

/-- Model of _collect_heights (src/bot/downloader.py lines 39-46): the set
of heights of streams with a real video codec, sorted descending. -/
def collect_heights (info : MediaInfo) : List Int :=
  (info.formats.filterMap heightOk).foldr insertDesc []

/-- The selector the code builds for one height:
f-string bv*[height={h}]+ba/b[height={h}]. -/
def selFor (h : Int) : String :=
  "bv*[height=" ++ intRepr h ++ "]+ba/b[height=" ++ intRepr h ++ "]"

/-- The label the code builds for one height: f-string {h}p. -/
def labelFor (h : Int) : String := intRepr h ++ "p"

/-- The generic catch-all row appended by _build_format_rows. -/
def fallbackRow : String × String := ("bv*+ba/best", "Лучшее доступное")

/-- Model of _build_format_rows (src/bot/downloader.py lines 49-63) with
its limit parameter explicit; every call site uses the default limit 10. -/
def build_format_rows (info : MediaInfo) (limit : Nat) :
    List (String × String) :=
  let heights := collect_heights info
  let rows := (heights.take limit).map (fun h => (selFor h, labelFor h))
  if ("best" : String) ∈ rows.map Prod.fst then rows
  else rows ++ [fallbackRow]

example :
    build_format_rows
      ⟨none, [],
        [⟨some "avc1", some 720⟩, ⟨some "avc1", some 1080⟩,
         ⟨some "none", some 480⟩, ⟨none, some 360⟩,
         ⟨some "vp9", some 720⟩, ⟨some "vp9", none⟩]⟩ 10 =
    [("bv*[height=1080]+ba/b[height=1080]", "1080p"),
     ("bv*[height=720]+ba/b[height=720]", "720p"),
     ("bv*+ba/best", "Лучшее доступное")] := by decide

theorem mem_insertDesc {x z : Int} : ∀ l : List Int,
    z ∈ insertDesc x l ↔ z = x ∨ z ∈ l := by
  intro l
  induction l with
  | nil => simp [insertDesc]
  | cons y ys ih =>
    by_cases h1 : x > y
    · simp only [insertDesc, if_pos h1]
      simp
    · by_cases h2 : x = y
      · subst h2
        simp only [insertDesc, if_neg h1, if_pos rfl]
        simp
      · simp only [insertDesc, if_neg h1, if_neg h2]
        simp [ih]
        tauto

theorem pairwise_insertDesc {x : Int} : ∀ {l : List Int},
    l.Pairwise (· > ·) → (insertDesc x l).Pairwise (· > ·) := by
  intro l
  induction l with
  | nil => intro _; simp [insertDesc]
  | cons y ys ih =>
    intro hp
    rcases List.pairwise_cons.mp hp with ⟨hy, hys⟩
    by_cases h1 : x > y
    · simp only [insertDesc, if_pos h1]
      refine List.pairwise_cons.mpr ⟨?_, hp⟩
      intro z hz
      rcases List.mem_cons.mp hz with hz | hz
      · omega
      · have := hy z hz
        omega
    · by_cases h2 : x = y
      · subst h2
        simpa only [insertDesc, if_neg h1, if_pos rfl] using hp
      · simp only [insertDesc, if_neg h1, if_neg h2]
        refine List.pairwise_cons.mpr ⟨?_, ih hys⟩
        intro z hz
        rcases (mem_insertDesc ys).mp hz with hz | hz
        · omega
        · exact hy z hz

theorem pairwise_collect_heights (info : MediaInfo) :
    (collect_heights info).Pairwise (· > ·) := by
  unfold collect_heights
  induction info.formats.filterMap heightOk with
  | nil => simp
  | cons h t ih => exact pairwise_insertDesc ih

theorem nodup_collect_heights (info : MediaInfo) :
    (collect_heights info).Nodup := by
  exact (pairwise_collect_heights info).imp (fun h => by omega)

theorem mem_collect_heights (info : MediaInfo) (h : Int) :
    h ∈ collect_heights info ↔
      ∃ f ∈ info.formats, vcodecOk f ∧ f.height = some h := by
  unfold collect_heights
  have hgen : ∀ L : List Int, h ∈ L.foldr insertDesc [] ↔ h ∈ L := by
    intro L
    induction L with
    | nil => simp
    | cons x xs ih =>
      simp only [List.foldr_cons, mem_insertDesc, ih, List.mem_cons]
  rw [hgen, List.mem_filterMap]
  constructor
  · rintro ⟨f, hf, hok⟩
    unfold heightOk at hok
    by_cases hv : vcodecOk f
    · rw [if_pos hv] at hok
      exact ⟨f, hf, by simpa using hv, hok⟩
    · rw [if_neg hv] at hok
      exact absurd hok (by simp)
  · rintro ⟨f, hf, hv, hh⟩
    exact ⟨f, hf, by simp [heightOk, hv, hh]⟩

theorem selFor_injective : Function.Injective selFor := by
  intro a b hab
  have hd := congrArg String.data hab
  simp only [selFor, data_append, List.append_assoc] at hd
  have hlen := congrArg List.length hd
  simp only [List.length_append] at hlen
  have hlen2 : (intRepr a).data.length = (intRepr b).data.length := by omega
  rcases List.append_inj (List.append_cancel_left hd) hlen2 with ⟨h1, _⟩
  exact intRepr_injective (string_ext h1)

theorem selFor_length (h : Int) :
    (selFor h).length = 26 + 2 * (intRepr h).length := by
  simp only [selFor, String.length_append]
  have h1 : ("bv*[height=" : String).length = 11 := by decide
  have h2 : ("]+ba/b[height=" : String).length = 14 := by decide
  have h3 : ("]" : String).length = 1 := by decide
  omega

theorem selFor_ne_best (h : Int) : selFor h ≠ "best" := by
  intro he
  have := congrArg String.length he
  rw [selFor_length] at this
  have hp := intRepr_length_pos h
  have : ("best" : String).length = 4 := by decide
  omega

theorem selFor_ne_fallback (h : Int) : selFor h ≠ fallbackRow.1 := by
  intro he
  have := congrArg String.length he
  rw [selFor_length] at this
  have hp := intRepr_length_pos h
  have : (fallbackRow.1 : String).length = 11 := by decide
  omega

theorem best_not_mem_rows (info : MediaInfo) (limit : Nat) :
    ("best" : String) ∉
      (((collect_heights info).take limit).map
        (fun h => (selFor h, labelFor h))).map Prod.fst := by
  intro hmem
  simp only [List.map_map, List.mem_map, Function.comp] at hmem
  rcases hmem with ⟨h, _, hh⟩
  exact selFor_ne_best h hh

theorem build_format_rows_eq (info : MediaInfo) (limit : Nat) :
    build_format_rows info limit =
      ((collect_heights info).take limit).map
        (fun h => (selFor h, labelFor h)) ++ [fallbackRow] := by
  unfold build_format_rows
  rw [if_neg (best_not_mem_rows info limit)]

theorem nodup_rows_selectors (info : MediaInfo) (limit : Nat) :
    ((build_format_rows info limit).map Prod.fst).Nodup := by
  rw [build_format_rows_eq]
  rw [List.map_append, List.map_map]
  have hfun :
      ((fun p : String × String => p.1) ∘ fun h : Int => (selFor h, labelFor h)) =
        selFor := by
    funext h; rfl
  rw [hfun]
  rw [List.nodup_append]
  refine ⟨?_, by simp [fallbackRow], ?_⟩
  · exact ((nodup_collect_heights info).sublist
      (List.take_sublist limit _)).map selFor_injective
  · intro s hs hmem
    simp only [List.mem_map] at hs
    rcases hs with ⟨h, _, hh⟩
    simp only [List.map_cons, List.map_nil, List.mem_singleton] at hmem
    subst hmem
    exact selFor_ne_fallback h hh

/-- C4: for metadata with N distinct video heights among streams whose
video codec is real, build_format_rows (at its default limit 10) yields
min(N,10) height rows in strictly descending height order followed by
exactly one fallback row, with pairwise-distinct selectors; for N = 0 the
length formula gives exactly one row (the fallback), so the list is never
empty. Here N is the length of collect_heights, which the last two
conjuncts identify as the duplicate-free enumeration of exactly the
heights of the codec-bearing streams. -/
theorem c4_enumerator_shape (info : MediaInfo) :
    (build_format_rows info 10).length =
        min ((collect_heights info).length) 10 + 1
  ∧ ((build_format_rows info 10).map Prod.fst).Nodup
  ∧ build_format_rows info 10 =
      ((collect_heights info).take 10).map
        (fun h => (selFor h, labelFor h)) ++ [fallbackRow]
  ∧ (collect_heights info).Pairwise (· > ·)
  ∧ ∀ h : Int, h ∈ collect_heights info ↔
      ∃ f ∈ info.formats, vcodecOk f ∧ f.height = some h := by
  refine ⟨?_, nodup_rows_selectors info 10, build_format_rows_eq info 10,
    pairwise_collect_heights info, mem_collect_heights info⟩
  rw [build_format_rows_eq]
  simp [List.length_take, Nat.min_comm]

/-- Metadata carrying ten distinct video heights. -/
def c5Info : MediaInfo :=
  ⟨none, [],
    [⟨some "avc1", some 2160⟩, ⟨some "avc1", some 1440⟩,
     ⟨some "avc1", some 1080⟩, ⟨some "avc1", some 720⟩,
     ⟨some "avc1", some 480⟩, ⟨some "avc1", some 360⟩,
     ⟨some "avc1", some 240⟩, ⟨some "avc1", some 144⟩,
     ⟨some "avc1", some 96⟩, ⟨some "avc1", some 48⟩]⟩

/-- C5 counterexample: on metadata with ten distinct heights the
enumerator emits ten height rows and still appends the fallback, so the
output has 11 entries and the claimed cap of 10 is exceeded. -/
theorem c5_cap_counterexample :
    (build_format_rows c5Info 10).length = 11
  ∧ ¬ (build_format_rows c5Info 10).length ≤ 10 := by
  constructor <;> decide

/-- C5 amended: the output of the enumerator at its fixed limit 10 has
length at most 11 (at most 10 height rows plus exactly one fallback);
the bound 10 of the claim only holds when there are at most 9 distinct
heights. -/
theorem c5_amended_cap_eleven (info : MediaInfo) :
    (build_format_rows info 10).length ≤ 11 := by
  rw [build_format_rows_eq]
  simp only [List.length_append, List.length_map, List.length_take,
    List.length_cons, List.length_nil]
  omega

/-- C6: creating a session under a token and immediately looking the
token up returns a session whose selector list is exactly the selector
column of the format rows passed in and whose source url is the one
passed in (round trip through the session store). -/
theorem c6_create_get_roundtrip (store : Store) (token url : String)
    (format_rows : List (String × String)) :
    ∃ req : RequestContext,
      dictGet (createSession store token url format_rows) token = some req
    ∧ req.selectors = format_rows.map Prod.fst
    ∧ req.url = url := by
  refine ⟨⟨url, format_rows.map Prod.fst, dictOfPairs format_rows⟩, ?_, rfl, rfl⟩
  simp [createSession, dictSet, dictGet]

/-! ### Thumbnail selection (_best_thumbnail, src/bot/downloader.py 18-36) -/

/-- Truthiness of t.get("url"): present and non-empty. -/
def urlTruthy (t : ThumbCand) : Bool :=
  match t.url with
  | some u => u ≠ ""
  | none => false

/-- The score the code computes: (t.get("height") or 0) * 10 +
(t.get("preference") or 0); a missing field and an explicit 0 both score
as 0 under Python or. -/
def thumbScore (t : ThumbCand) : Int :=
  t.height.getD 0 * 10 + t.preference.getD 0

/-- The accumulator loop of _best_thumbnail: best and best_score start as
None and -1; a candidate replaces them only when score > best_score and
its url is truthy. -/
def bestLoop : List ThumbCand → Option String → Int → Option String
  | [], best, _ => best
  | t :: ts, best, bestScore =>
    match t.url with
    | some u =>
      if thumbScore t > bestScore ∧ u ≠ "" then
        bestLoop ts (some u) (thumbScore t)
      else bestLoop ts best bestScore
    | none => bestLoop ts best bestScore

/-- Model of _best_thumbnail: prefer a truthy single thumbnail field,
otherwise run the scoring loop over the thumbnails list. -/
def best_thumbnail (info : MediaInfo) : Option String :=
  match info.thumbnail with
  | some u => if u ≠ "" then some u else bestLoop info.thumbnails none (-1)
  | none => bestLoop info.thumbnails none (-1)

/-- The running maximum of the scores of url-bearing candidates, folded
over an initial sentinel. -/
def maxScoreFrom (init : Int) (ts : List ThumbCand) : Int :=
  ((ts.filter urlTruthy).map thumbScore).foldl max init

/-- The spec-side characterization of the loop result: if the maximal
score of the url-bearing candidates beats the sentinel, the url of the
first url-bearing candidate attaining that maximum; otherwise nothing. -/
def specPick (init : Int) (ts : List ThumbCand) : Option String :=
  if maxScoreFrom init ts ≤ init then none
  else (ts.find? (fun t => urlTruthy t && thumbScore t == maxScoreFrom init ts)).bind
    (fun t => t.url)

/-- Spec-side restatement of the amended C9: the truthy single thumbnail
field wins; otherwise the first url-bearing candidate attaining the
maximal score is returned, provided that maximum exceeds the -1 sentinel,
and nothing is returned otherwise (so with negative preferences a
url-bearing maximizer scoring at most -1 is dropped). -/
def specThumb (info : MediaInfo) : Option String :=
  match info.thumbnail with
  | some u => if u ≠ "" then some u else specPick (-1) info.thumbnails
  | none => specPick (-1) info.thumbnails

theorem find?_cons_true {α : Type} (p : α → Bool) (a : α) (l : List α)
    (h : p a = true) : (a :: l).find? p = some a := by
  simp [List.find?_cons, h]

theorem find?_cons_false {α : Type} (p : α → Bool) (a : α) (l : List α)
    (h : p a = false) : (a :: l).find? p = l.find? p := by
  simp [List.find?_cons, h]

theorem le_foldl_max (l : List Int) (a : Int) : a ≤ l.foldl max a := by
  induction l generalizing a with
  | nil => exact le_refl a
  | cons x xs ih =>
    calc a ≤ max a x := le_max_left a x
    _ ≤ xs.foldl max (max a x) := ih (max a x)

theorem bestLoop_spec : ∀ (ts : List ThumbCand) (best : Option String) (bs : Int),
    bestLoop ts best bs =
      if maxScoreFrom bs ts ≤ bs then best
      else (ts.find? (fun t => urlTruthy t && thumbScore t == maxScoreFrom bs ts)).bind
        (fun t => t.url) := by
  intro ts
  induction ts with
  | nil =>
    intro best bs
    simp [bestLoop, maxScoreFrom]
  | cons t rest ih =>
    intro best bs
    rcases hurl : t.url with _ | u
    · -- url absent: the candidate is skipped by loop, filter and find?
      have hu : urlTruthy t = false := by simp [urlTruthy, hurl]
      have hloop : bestLoop (t :: rest) best bs = bestLoop rest best bs := by
        simp [bestLoop, hurl]
      have hfil : maxScoreFrom bs (t :: rest) = maxScoreFrom bs rest := by
        simp [maxScoreFrom, List.filter_cons, hu]
      rw [hloop, ih best bs, hfil]
      by_cases hle : maxScoreFrom bs rest ≤ bs
      · rw [if_pos hle, if_pos hle]
      · rw [if_neg hle, if_neg hle,
          find?_cons_false
            (fun s => urlTruthy s && thumbScore s == maxScoreFrom bs rest)
            t rest (by simp [hu])]
    · by_cases hue : u = ""
      · -- url empty: falsy, candidate skipped everywhere
        have hu : urlTruthy t = false := by simp [urlTruthy, hurl, hue]
        have hloop : bestLoop (t :: rest) best bs = bestLoop rest best bs := by
          simp [bestLoop, hurl, hue]
        have hfil : maxScoreFrom bs (t :: rest) = maxScoreFrom bs rest := by
          simp [maxScoreFrom, List.filter_cons, hu]
        rw [hloop, ih best bs, hfil]
        by_cases hle : maxScoreFrom bs rest ≤ bs
        · rw [if_pos hle, if_pos hle]
        · rw [if_neg hle, if_neg hle,
            find?_cons_false
              (fun s => urlTruthy s && thumbScore s == maxScoreFrom bs rest)
              t rest (by simp [hu])]
      · -- url truthy
        have hu : urlTruthy t = true := by simp [urlTruthy, hurl, hue]
        have hfil : maxScoreFrom bs (t :: rest) =
            ((rest.filter urlTruthy).map thumbScore).foldl max
              (max bs (thumbScore t)) := by
          simp [maxScoreFrom, List.filter_cons, hu]
        by_cases hgt : thumbScore t > bs
        · -- strict improvement: loop recurses with the new best
          have hmax : max bs (thumbScore t) = thumbScore t :=
            max_eq_right (le_of_lt hgt)
          have hm : maxScoreFrom bs (t :: rest) =
              maxScoreFrom (thumbScore t) rest := by
            rw [hfil, hmax]; rfl
          have hstle : thumbScore t ≤ maxScoreFrom (thumbScore t) rest :=
            le_foldl_max _ _
          have hloop : bestLoop (t :: rest) best bs =
              bestLoop rest (some u) (thumbScore t) := by
            simp [bestLoop, hurl, hgt, hue]
          rw [hloop, ih (some u) (thumbScore t), hm]
          have hnle : ¬ maxScoreFrom (thumbScore t) rest ≤ bs := by omega
          rw [if_neg hnle]
          by_cases heq : maxScoreFrom (thumbScore t) rest ≤ thumbScore t
          · -- the head is the first maximizer
            have heq2 : thumbScore t = maxScoreFrom (thumbScore t) rest := by
              omega
            rw [if_pos (le_of_eq heq2.symm)]
            have hpt : (urlTruthy t &&
                (thumbScore t == maxScoreFrom (thumbScore t) rest)) = true := by
              simp only [hu, Bool.true_and, beq_iff_eq]
              exact heq2
            rw [find?_cons_true
              (fun s => urlTruthy s &&
                thumbScore s == maxScoreFrom (thumbScore t) rest)
              t rest hpt]
            simp [hurl]
          · -- the maximum lies strictly beyond the head
            rw [if_neg heq]
            have hpt : (urlTruthy t &&
                (thumbScore t == maxScoreFrom (thumbScore t) rest)) = false := by
              simp only [hu, Bool.true_and, beq_eq_false_iff_ne, ne_eq]
              omega
            rw [find?_cons_false
              (fun s => urlTruthy s &&
                thumbScore s == maxScoreFrom (thumbScore t) rest)
              t rest hpt]
        · -- no improvement: the head cannot attain a maximum above bs
          have hmax : max bs (thumbScore t) = bs := max_eq_left (by omega)
          have hm : maxScoreFrom bs (t :: rest) = maxScoreFrom bs rest := by
            rw [hfil, hmax]; rfl
          have hloop : bestLoop (t :: rest) best bs = bestLoop rest best bs := by
            simp [bestLoop, hurl, hgt]
          rw [hloop, ih best bs, hm]
          by_cases hle : maxScoreFrom bs rest ≤ bs
          · rw [if_pos hle, if_pos hle]
          · rw [if_neg hle, if_neg hle]
            have hpt : (urlTruthy t &&
                (thumbScore t == maxScoreFrom bs rest)) = false := by
              simp only [hu, Bool.true_and, beq_eq_false_iff_ne, ne_eq]
              omega
            rw [find?_cons_false
              (fun s => urlTruthy s && thumbScore s == maxScoreFrom bs rest)
              t rest hpt]

/-- C9 amended: the picker returns a truthy single thumbnail field
directly; otherwise it returns the url of the first url-bearing candidate
attaining the maximal score height*10 + preference (missing fields score
0), provided that maximum exceeds the -1 sentinel; if every url-bearing
candidate scores at most -1 (possible with negative preferences) it
returns nothing; candidates without a truthy url are never returned.
specThumb is the direct transcription of that description. -/
theorem c9_thumbnail_spec (info : MediaInfo) :
    best_thumbnail info = specThumb info := by
  unfold best_thumbnail specThumb specPick
  cases info.thumbnail with
  | none => exact bestLoop_spec info.thumbnails none (-1)
  | some u =>
    by_cases hu : u = ""
    · simp only [hu, ne_eq, not_true_eq_false, if_false]
      exact bestLoop_spec info.thumbnails none (-1)
    · simp only [ne_eq, hu, not_false_eq_true, if_true]

/-- C9 counterexample: with no single thumbnail field and exactly one
candidate, which has the truthy url "u", no height and preference -1
(so score -1), the claim demands that "u" be returned as the unique
url-bearing maximizer, but the code returns nothing because the score
does not beat the initial best_score sentinel of -1. -/
theorem c9_negative_preference_counterexample :
    best_thumbnail ⟨none, [⟨some "u", none, some (-1)⟩], []⟩ = none
  ∧ urlTruthy ⟨some "u", none, some (-1)⟩ = true
  ∧ best_thumbnail ⟨none, [⟨some "u", none, some (-1)⟩], []⟩ ≠ some "u" := by
  refine ⟨by decide, by decide, by decide⟩

/-! ### Path helpers (models of os.path and str functions) -/

/-- ASCII lower-casing of one char (model of str.lower on the ASCII file
extensions the code compares). -/
def pyLowerChar (c : Char) : Char :=
  if 65 ≤ c.toNat ∧ c.toNat ≤ 90 then Char.ofNat (c.toNat + 32) else c

/-- Model of str.lower. -/
def pyLower (s : String) : String := ⟨s.data.map pyLowerChar⟩

/-- Model of os.path.basename: everything after the last slash. -/
def pyBasename (p : String) : String :=
  ⟨(p.data.reverse.takeWhile (· ≠ '/')).reverse⟩

/-- Model of os.path.dirname: everything before the last slash, with
trailing slashes stripped unless what remains is all slashes. The
repeated dropWhile term is the reversed prefix up to and including the
last slash. -/
def pyDirname (p : String) : String :=
  if (p.data.reverse.dropWhile (· ≠ '/')).all (· = '/') then
    ⟨(p.data.reverse.dropWhile (· ≠ '/')).reverse⟩
  else ⟨((p.data.reverse.dropWhile (· ≠ '/')).dropWhile (· = '/')).reverse⟩

/-- Model of os.path.splitext(p)[1].lstrip("."): the extension after the
last dot of the basename, where leading dots of the basename do not
start an extension, stripped of its dot. -/
def pySplitextExt (p : String) : String :=
  let base := (pyBasename p).data
  let lead := base.takeWhile (· = '.')
  let rest := base.drop lead.length
  if rest.any (· = '.') then ⟨(rest.reverse.takeWhile (· ≠ '.')).reverse⟩
  else ""

example : pyDirname "tmp/vd_x/v.mp4" = "tmp/vd_x" := by decide
example : pyDirname "/a" = "/" := by decide
example : pyBasename "tmp/vd_x/v.mp4" = "v.mp4" := by decide
example : pySplitextExt "tmp/v.x/archive.tar.gz" = "gz" := by decide
example : pySplitextExt "tmp/.bashrc" = "" := by decide
example : pyLower "MP4" = "mp4" := by decide

/-! ### Download Orchestrator (download_video_sync and the click handler
tail, src/bot/downloader.py 99-119 and src/bot/main.py 110-164) -/

/-- Observable step of one handler run: chat-transport calls, the engine
invocation and the filesystem effects on temporary artifacts. The try
block around open plus reply_video or reply_document is modelled as one
fallible upload action carrying the path and the caption. -/
inductive Action where
  | answerQuery
  | sendChatAction
  | message (text : String)
  | mkTempDir (dir : String)
  | download (url : String) (selector : String)
  | removeFile (path : String)
  | rmtree (dir : String)
  | uploadVideo (path : String) (caption : String)
  | uploadDocument (path : String) (caption : String)
  deriving DecidableEq

/-- What a successful yt-dlp extract_info(download=True) reports for one
entry: the output file name prepare_filename yields inside the temp dir,
and the ext field of the info dict (none when absent). -/
structure YdlEntry where
  filename : String
  extField : Option String
  deriving DecidableEq

/-- A yt-dlp result: a single entry, or a playlist with its entries. -/
inductive YdlOut where
  | single (e : YdlEntry)
  | playlist (entries : List YdlEntry)
  deriving DecidableEq

/-- Playlist collapsing in download_video_sync: a playlist falls back to
its first entry; an empty playlist has no entry. -/
def collapseYdl : YdlOut → Option YdlEntry
  | .single e => some e
  | .playlist [] => none
  | .playlist (e :: _) => some e

/-- Model of download_video_sync (src/bot/downloader.py lines 99-119):
mkdtemp runs first, then the engine; on engine failure or an empty
playlist the error propagates with the temp dir left in place; otherwise
the filepath inside the temp dir, its basename and the ext (the info
field if truthy, else the filename suffix) are returned. The first
component is the list of effects performed, the second the returned
triple or the raised error text. -/
def download_video_sync (url selector tempDir : String)
    (ydl : Except String YdlOut) :
    List Action × Except String (String × String × String) :=
  let acts := [Action.mkTempDir tempDir, Action.download url selector]
  match ydl with
  | .error e => (acts, .error e)
  | .ok out =>
    match collapseYdl out with
    | none => (acts, .error "Не удалось скачать видео")
    | some e =>
      let filepath := tempDir ++ "/" ++ e.filename
      let ext :=
        match e.extField with
        | some s => if s = "" then pySplitextExt filepath else s
        | none => pySplitextExt filepath
      (acts, .ok (filepath, pyBasename filepath, ext))

/-- The inputs that determine one orchestration run: the name mkdtemp
returns, what the engine does, what os.path.getsize reports (none models
an OSError), and whether the upload call raises. -/
structure OrchEnv where
  tempDir : String
  ydl : Except String YdlOut
  probeSize : Option Nat
  uploadRaises : Bool

/-- One orchestration run: its effect trace and whether the handler ends
by propagating an exception. -/
structure OrchResult where
  actions : List Action
  raised : Bool
  deriving DecidableEq

/-- The upload ceiling: max_bot_upload = 49 * 1024 * 1024. -/
def maxBotUpload : Nat := 49 * 1024 * 1024

/-- The oversize report the code formats, including the computed
max_bot_upload // 1024 // 1024 megabyte figure. -/
def oversizedText (label : String) : String :=
  "Файл " ++ label ++ " слишком большой для загрузки ботом (>" ++
    natRepr (maxBotUpload / 1024 / 1024) ++
    "MB). Пожалуйста, выберите более низкое качество."

/-- Extensions presented as videos: {"mp4", "mov", "m4v"}. -/
def videoExts : List String := ["mp4", "mov", "m4v"]

/-- Model of the click handler from the accepted selection onward
(src/bot/main.py lines 110-164): status edit, chat action, download;
on download failure report and return; size probe failing open to 0;
the 49 MiB gate with message and cleanup; else upload as video or
document by lower-cased extension with cleanup in a finally block, the
closing status edit only when the upload did not raise. -/
def orchestrate (url selector label : String) (env : OrchEnv) : OrchResult :=
  let pre := [Action.message ("Скачивание " ++ label ++ "…"),
              Action.sendChatAction]
  let dl := download_video_sync url selector env.tempDir env.ydl
  match dl.2 with
  | .error e =>
    ⟨pre ++ dl.1 ++ [Action.message ("Не удалось скачать " ++ label ++ ": " ++ e)],
      false⟩
  | .ok (filepath, filename, ext) =>
    let size : Nat := env.probeSize.getD 0
    if size ≠ 0 ∧ size > maxBotUpload then
      ⟨pre ++ dl.1 ++
        [Action.message (oversizedText label),
         Action.removeFile filepath,
         Action.rmtree (pyDirname filepath)], false⟩
    else
      let up := if pyLower ext ∈ videoExts then
          Action.uploadVideo filepath filename
        else Action.uploadDocument filepath filename
      let cleanup := [Action.removeFile filepath,
        Action.rmtree (pyDirname filepath)]
      if env.uploadRaises then ⟨pre ++ dl.1 ++ [up] ++ cleanup, true⟩
      else ⟨pre ++ dl.1 ++ [up] ++ cleanup ++
        [Action.message ("Готово: " ++ label)], false⟩

/-- Is this action an upload attempt? -/
def isUpload : Action → Bool
  | .uploadVideo _ _ => true
  | .uploadDocument _ _ => true
  | _ => false

/-- Number of upload attempts in a trace. -/
def uploadCount (acts : List Action) : Nat := acts.countP isUpload

/-- Temp dirs created in a trace. -/
def dirsCreated (acts : List Action) : List String :=
  acts.filterMap fun a => match a with | .mkTempDir d => some d | _ => none

/-- Temp dirs removed in a trace. -/
def dirsRemoved (acts : List Action) : List String :=
  acts.filterMap fun a => match a with | .rmtree d => some d | _ => none

/-- A yt-dlp outcome whose produced file names contain no slash, so that
dirname of the produced path is the temp dir itself. -/
def ydlWF : Except String YdlOut → Prop
  | .error _ => True
  | .ok (.single e) => ('/' : Char) ∉ e.filename.data
  | .ok (.playlist es) => ∀ e ∈ es, ('/' : Char) ∉ e.filename.data

/-- Well-formed run inputs: the mkdtemp name is non-empty without a
trailing slash (true of every real mkdtemp result) and the engine
produces slash-free file names. -/
def envWF (env : OrchEnv) : Prop :=
  env.tempDir.data ≠ [] ∧ env.tempDir.data.getLast? ≠ some '/'
  ∧ ydlWF env.ydl

theorem dropWhile_append_all {α : Type} (p : α → Bool) (l₁ l₂ : List α)
    (h : ∀ x ∈ l₁, p x = true) :
    (l₁ ++ l₂).dropWhile p = l₂.dropWhile p := by
  induction l₁ with
  | nil => rfl
  | cons a l ih =>
    have ha := h a (List.mem_cons_self a l)
    rw [List.cons_append, List.dropWhile_cons, if_pos ha]
    exact ih (fun x hx => h x (List.mem_cons_of_mem a hx))

theorem pyDirname_concat (d name : String) (hne : d.data ≠ [])
    (hlast : d.data.getLast? ≠ some '/')
    (hn : ('/' : Char) ∉ name.data) :
    pyDirname (d ++ "/" ++ name) = d := by
  have hdata : (d ++ "/" ++ name).data = d.data ++ '/' :: name.data := by
    simp [data_append]
  have hrev : (d ++ "/" ++ name).data.reverse =
      name.data.reverse ++ '/' :: d.data.reverse := by
    rw [hdata]
    simp
  have hstem : (d ++ "/" ++ name).data.reverse.dropWhile (· ≠ '/') =
      '/' :: d.data.reverse := by
    rw [hrev, dropWhile_append_all]
    · rw [List.dropWhile_cons]
      simp
    · intro x hx
      simp only [List.mem_reverse] at hx
      have hxne : x ≠ '/' := fun hxe => hn (hxe ▸ hx)
      simp [hxne]
  obtain ⟨c, t, hr⟩ : ∃ c t, d.data.reverse = c :: t := by
    cases hdr : d.data.reverse with
    | nil => exact absurd (List.reverse_eq_nil_iff.mp hdr) hne
    | cons c t => exact ⟨c, t, rfl⟩
  have hdd : d.data = (c :: t).reverse := by
    rw [← hr, List.reverse_reverse]
  have hc : c ≠ '/' := by
    intro hce
    apply hlast
    rw [hdd, List.getLast?_reverse, ← hce]
    rfl
  have hdw2 : (('/' :: c :: t).dropWhile (· = '/')) = c :: t := by
    simp [List.dropWhile_cons, hc]
  unfold pyDirname
  rw [hstem, hr]
  rw [if_neg (by simp [hc])]
  rw [hdw2]
  exact string_ext hdd.symm

theorem download_video_sync_acts (url selector tempDir : String)
    (ydl : Except String YdlOut) :
    (download_video_sync url selector tempDir ydl).1 =
      [Action.mkTempDir tempDir, Action.download url selector] := by
  unfold download_video_sync
  cases ydl with
  | error e => rfl
  | ok out =>
    cases hout : collapseYdl out with
    | none => simp [hout]
    | some e => simp [hout]

theorem download_ok_dirname (url selector : String) (env : OrchEnv)
    (hwf : envWF env) (fp fn ext : String)
    (hok : (download_video_sync url selector env.tempDir env.ydl).2 =
      Except.ok (fp, fn, ext)) :
    pyDirname fp = env.tempDir := by
  obtain ⟨h1, h2, h3⟩ := hwf
  cases hy : env.ydl with
  | error e =>
    rw [hy] at hok
    simp [download_video_sync] at hok
  | ok out =>
    rw [hy] at hok
    rw [hy] at h3
    cases out with
    | single e =>
      have hfp : fp = env.tempDir ++ "/" ++ e.filename := by
        simp [download_video_sync, collapseYdl] at hok
        exact hok.1.symm
      rw [hfp]
      exact pyDirname_concat _ _ h1 h2 h3
    | playlist es =>
      cases es with
      | nil => simp [download_video_sync, collapseYdl] at hok
      | cons e es =>
        have hfp : fp = env.tempDir ++ "/" ++ e.filename := by
          simp [download_video_sync, collapseYdl] at hok
          exact hok.1.symm
        rw [hfp]
        exact pyDirname_concat _ _ h1 h2 (h3 e (List.mem_cons_self e es))

/-- C2 at its failing input: the selection is fine and the engine raises
after mkdtemp; the trace creates the temp dir and never removes any
directory, so the temporary directory outlives the call, against the
claimed every-exit-path cleanup. -/
theorem c2_engine_failure_leaks_tempdir :
    Action.mkTempDir "tmp/vd_x" ∈
      (orchestrate "u" "s" "l"
        ⟨"tmp/vd_x", Except.error "boom", none, false⟩).actions
  ∧ dirsRemoved
      (orchestrate "u" "s" "l"
        ⟨"tmp/vd_x", Except.error "boom", none, false⟩).actions = [] := by
  constructor <;> decide

/-- First character of a string, used to separate the distinct outbound
message texts. -/
def strHead (s : String) : Option Char := s.data.head?

theorem strHead_append_of_some {x : String} {c : Char}
    (h : strHead x = some c) (y : String) : strHead (x ++ y) = some c := by
  unfold strHead at h ⊢
  rw [data_append]
  cases hx : x.data with
  | nil => rw [hx] at h; simp at h
  | cons a l =>
    rw [hx] at h
    simp only [List.head?_cons, Option.some.injEq] at h
    rw [List.cons_append]
    simp [h]

theorem ne_of_strHead {s t : String} (h : strHead s ≠ strHead t) : s ≠ t :=
  fun he => h (he ▸ rfl)

theorem strHead_oversized (label : String) :
    strHead (oversizedText label) = some 'Ф' := by
  unfold oversizedText
  exact strHead_append_of_some (strHead_append_of_some
    (strHead_append_of_some (strHead_append_of_some (by decide) label) _) _) _

theorem strHead_downloading (label : String) :
    strHead ("Скачивание " ++ label ++ "…") = some 'С' :=
  strHead_append_of_some (strHead_append_of_some (by decide) label) "…"

theorem strHead_done (label : String) :
    strHead ("Готово: " ++ label) = some 'Г' :=
  strHead_append_of_some (by decide) label

/-- C3: when the size probe reports n, a strictly oversized artifact
(n above the 49 MiB ceiling) triggers no upload attempt, removal of the
temp dir and the oversized report; an artifact within the ceiling
triggers exactly one upload attempt and removal of the temp dir, whatever
the upload call then does (env.uploadRaises is unconstrained). -/
theorem c3_size_gate (url selector label : String) (env : OrchEnv)
    (hwf : envWF env) (fp fn ext : String)
    (hok : (download_video_sync url selector env.tempDir env.ydl).2 =
      Except.ok (fp, fn, ext))
    (n : Nat) (hp : env.probeSize = some n) :
    (maxBotUpload < n →
        uploadCount (orchestrate url selector label env).actions = 0
      ∧ Action.rmtree env.tempDir ∈ (orchestrate url selector label env).actions
      ∧ Action.message (oversizedText label) ∈
          (orchestrate url selector label env).actions)
  ∧ (n ≤ maxBotUpload →
        uploadCount (orchestrate url selector label env).actions = 1
      ∧ Action.rmtree env.tempDir ∈
          (orchestrate url selector label env).actions) := by
  have hacts := download_video_sync_acts url selector env.tempDir env.ydl
  have hdir := download_ok_dirname url selector env hwf fp fn ext hok
  constructor
  · intro hbig
    have hcond : env.probeSize.getD 0 ≠ 0 ∧
        env.probeSize.getD 0 > maxBotUpload := by
      rw [hp]
      simp only [Option.getD_some]
      have hpos : 0 < maxBotUpload := by unfold maxBotUpload; omega
      omega
    simp only [orchestrate, hok, hacts, if_pos hcond, hdir]
    refine ⟨?_, ?_, ?_⟩
    · simp [uploadCount, List.countP_append, List.countP_cons, isUpload]
    · simp
    · simp
  · intro hsmall
    have hcond : ¬ (env.probeSize.getD 0 ≠ 0 ∧
        env.probeSize.getD 0 > maxBotUpload) := by
      rw [hp]
      simp only [Option.getD_some]
      omega
    simp only [orchestrate, hok, hacts, if_neg hcond, hdir]
    constructor
    · split_ifs <;>
        simp [uploadCount, List.countP_append, List.countP_cons, isUpload]
    · split_ifs <;> simp

/-- C7: when the size probe fails (os.path.getsize raises OSError), the
orchestrator treats the size as 0, proceeds to make exactly one upload
attempt and never emits the oversized report. -/
theorem c7_probe_fail_open (url selector label : String) (env : OrchEnv)
    (fp fn ext : String)
    (hok : (download_video_sync url selector env.tempDir env.ydl).2 =
      Except.ok (fp, fn, ext))
    (hp : env.probeSize = none) :
    uploadCount (orchestrate url selector label env).actions = 1
  ∧ Action.message (oversizedText label) ∉
      (orchestrate url selector label env).actions := by
  have hacts := download_video_sync_acts url selector env.tempDir env.ydl
  have hcond : ¬ (env.probeSize.getD 0 ≠ 0 ∧
      env.probeSize.getD 0 > maxBotUpload) := by
    rw [hp]
    simp
  have hne1 : oversizedText label ≠ "Скачивание " ++ label ++ "…" :=
    ne_of_strHead (by rw [strHead_oversized, strHead_downloading]; decide)
  have hne2 : oversizedText label ≠ "Готово: " ++ label :=
    ne_of_strHead (by rw [strHead_oversized, strHead_done]; decide)
  simp only [orchestrate, hok, hacts, if_neg hcond]
  constructor
  · split_ifs <;>
      simp [uploadCount, List.countP_append, List.countP_cons, isUpload]
  · split_ifs <;> simp [hne1, hne2]

/-! ### Callback payload parsing and the click handler
(on_download_click, src/bot/main.py 88-164) -/

/-- Does the char list pre start the char list s? -/
def listStarts : List Char → List Char → Bool
  | [], _ => true
  | _ :: _, [] => false
  | p :: ps, c :: cs => (p = c) && listStarts ps cs

/-- Model of str.startswith. -/
def pyStartsWith (s pre : String) : Bool := listStarts pre.data s.data

/-- Split a char list at every bar. -/
def splitBarAll : List Char → List Char → List (List Char)
  | [], acc => [acc.reverse]
  | c :: rest, acc =>
    if c = '|' then acc.reverse :: splitBarAll rest []
    else splitBarAll rest (c :: acc)

/-- Rejoin split groups with bars. -/
def joinBar (ls : List (List Char)) : String :=
  ⟨(ls.intersperse ['|']).flatten⟩

/-- Model of data.split("|", 2): at most two splits, the remainder keeps
its bars. -/
def pySplitMax2 (s : String) : List String :=
  match splitBarAll s.data [] with
  | [] => [s]
  | [a] => [⟨a⟩]
  | [a, b] => [⟨a⟩, ⟨b⟩]
  | a :: b :: rest => [⟨a⟩, ⟨b⟩, joinBar rest]

example : pySplitMax2 "dl|tok|1f" = ["dl", "tok", "1f"] := by decide
example : pySplitMax2 "dl|tok" = ["dl", "tok"] := by decide
example : pySplitMax2 "dl|a|b|c" = ["dl", "a", "b|c"] := by decide
example : pySplitMax2 "dl" = ["dl"] := by decide

/-- Value of one hex digit, upper or lower case. -/
def hexDigitVal : Char → Option Nat := fun c =>
  if 48 ≤ c.toNat ∧ c.toNat ≤ 57 then some (c.toNat - 48)
  else if 97 ≤ c.toNat ∧ c.toNat ≤ 102 then some (c.toNat - 87)
  else if 65 ≤ c.toNat ∧ c.toNat ≤ 70 then some (c.toNat - 55)
  else none

/-- Accumulate hex digits, allowing a single underscore between digits
as Python int literals do. -/
def parseHexGo : List Char → Nat → Option Nat
  | [], acc => some acc
  | '_' :: c :: rest, acc =>
    match hexDigitVal c with
    | some d => parseHexGo rest (acc * 16 + d)
    | none => none
  | c :: rest, acc =>
    match hexDigitVal c with
    | some d => parseHexGo rest (acc * 16 + d)
    | none => none

/-- A non-empty hex digit group: must begin with a digit. -/
def parseHexDigits : List Char → Option Nat
  | [] => none
  | c :: rest =>
    match hexDigitVal c with
    | some d => parseHexGo rest d
    | none => none

/-- After an 0x marker Python permits one separating underscore. -/
def parseHexAfterMark : List Char → Option Nat
  | '_' :: rest => parseHexDigits rest
  | cs => parseHexDigits cs

/-- The unsigned part: an optional 0x or 0X marker, then digits. -/
def parseHexBody : List Char → Option Nat
  | '0' :: 'x' :: rest => parseHexAfterMark rest
  | '0' :: 'X' :: rest => parseHexAfterMark rest
  | cs => parseHexDigits cs

/-- Python whitespace stripped by int(). -/
def isPySpace (c : Char) : Bool :=
  c = ' ' || c = '\t' || c = '\n' || c = '\r' || c.toNat = 11 || c.toNat = 12

/-- Model of Python int(s, 16): strip whitespace, optional sign, optional
0x marker, hex digits with single underscores between digits; anything
else fails. -/
def pyIntHex (s : String) : Option Int :=
  match (s.data.dropWhile isPySpace).reverse.dropWhile isPySpace |>.reverse with
  | '+' :: rest => (parseHexBody rest).map (fun n => (n : Int))
  | '-' :: rest => (parseHexBody rest).map (fun n => -(n : Int))
  | cs => (parseHexBody cs).map (fun n => (n : Int))

example : pyIntHex "1f" = some 31 := by decide
example : pyIntHex " -0x1F " = some (-31) := by decide
example : pyIntHex "zz" = none := by decide
example : pyIntHex "" = none := by decide
example : pyIntHex "1_f" = some 31 := by decide
example : pyIntHex "_1f" = none := by decide
example : pyIntHex "b|c" = none := by decide

/-- Everything one run of on_download_click leaves behind: the session
store it returns (the handler never writes to it), the effect trace and
whether the run ends in a propagating exception. -/
structure HandlerResult where
  store : Store
  actions : List Action
  raised : Bool
  deriving DecidableEq

/-- Stale-session report. -/
def staleText : String := "Сессия устарела. Отправьте ссылку снова."

/-- Model of on_download_click (src/bot/main.py lines 88-164): answer the
callback, drop payloads without the dl-bar marker, split with maxsplit 2
and unpack (exactly three parts or a ValueError drops the event), parse
the hex index (failure drops the event), resolve against the store, and
either report a stale session or run the download orchestration with the
resolved selector. The payload is query.data, none standing for a missing
field (the code substitutes the empty string). -/
def handleCallback (store : Store) (payload : Option String)
    (env : OrchEnv) : HandlerResult :=
  let data := payload.getD ""
  if pyStartsWith data "dl|" then
    match pySplitMax2 data with
    | [_, token, idxHex] =>
      match pyIntHex idxHex with
      | some idx =>
        match resolveSelection store token idx with
        | .stale => ⟨store, [Action.answerQuery, Action.message staleText], false⟩
        | .chosen selector label url =>
          let r := orchestrate url selector label env
          ⟨store, Action.answerQuery :: r.actions, r.raised⟩
      | none => ⟨store, [Action.answerQuery], false⟩
    | _ => ⟨store, [Action.answerQuery], false⟩
  else ⟨store, [Action.answerQuery], false⟩

theorem getD_eq_get {α : Type} (l : List α) (d : α) (i : Nat)
    (h : i < l.length) : l.getD i d = l.get ⟨i, h⟩ := by
  induction l generalizing i with
  | nil => simp at h
  | cons a t ih =>
    cases i with
    | zero => rfl
    | succ j => exact ih j (by simpa using h)

/-- C1: the resolver reports a stale session when the token is unknown,
when the index is negative and when the index is at or beyond the number
of choices; for an in-range index it yields exactly the selector at that
ordinal with its label and the session's source url. -/
theorem c1_resolver_contract (store : Store) (token : String) (idx : Int) :
    (dictGet store token = none →
      resolveSelection store token idx = .stale)
  ∧ (idx < 0 → resolveSelection store token idx = .stale)
  ∧ (∀ req, dictGet store token = some req →
      (req.selectors.length : Int) ≤ idx →
      resolveSelection store token idx = .stale)
  ∧ (∀ req, dictGet store token = some req → 0 ≤ idx →
      idx < (req.selectors.length : Int) →
      resolveSelection store token idx =
        .chosen (req.selectors.getD idx.toNat "")
          ((dictGet req.labels (req.selectors.getD idx.toNat "")).getD
            "запрошенный формат")
          req.url) := by
  refine ⟨?_, ?_, ?_, ?_⟩
  · intro h
    simp [resolveSelection, h]
  · intro hneg
    cases hd : dictGet store token with
    | none => simp [resolveSelection, hd]
    | some req =>
      simp only [resolveSelection, hd]
      rw [dif_neg (by omega)]
  · intro req hreq hle
    simp only [resolveSelection, hreq]
    rw [dif_neg (by omega)]
  · intro req hreq h0 hlt
    simp only [resolveSelection, hreq]
    have hb : idx.toNat < req.selectors.length := by omega
    rw [dif_pos ⟨h0, hlt⟩, getD_eq_get req.selectors "" idx.toNat hb]

/-- A one-session store used to instantiate the resolver and handler
theorems. -/
def c1Store : Store :=
  [("tok", ⟨"u", ["s0", "s1", "s2"],
    [("s0", "l0"), ("s1", "l1"), ("s2", "l2")]⟩)]

theorem c1_resolver_contract_witness :
    resolveSelection c1Store "bad" 0 = .stale
  ∧ resolveSelection c1Store "tok" (-1) = .stale
  ∧ resolveSelection c1Store "tok" 3 = .stale
  ∧ resolveSelection c1Store "tok" 1 = .chosen "s1" "l1" "u" := by
  refine ⟨(c1_resolver_contract c1Store "bad" 0).1 (by decide),
    (c1_resolver_contract c1Store "tok" (-1)).2.1 (by decide),
    (c1_resolver_contract c1Store "tok" 3).2.2.1
      ⟨"u", ["s0", "s1", "s2"], [("s0", "l0"), ("s1", "l1"), ("s2", "l2")]⟩
      (by decide) (by decide),
    ((c1_resolver_contract c1Store "tok" 1).2.2.2
      ⟨"u", ["s0", "s1", "s2"], [("s0", "l0"), ("s1", "l1"), ("s2", "l2")]⟩
      (by decide) (by decide) (by decide)).trans (by decide)⟩

/-- C8: one handler run returns the session store unchanged, and a
selection that resolved before the run resolves identically against the
returned store, so a second click on the same button succeeds the same
way: tokens are not single-use. -/
theorem c8_resolution_pure (store : Store) (payload : Option String)
    (env : OrchEnv) :
    (handleCallback store payload env).store = store
  ∧ ∀ token idx sel lab url,
      resolveSelection store token idx = .chosen sel lab url →
      resolveSelection (handleCallback store payload env).store token idx =
        .chosen sel lab url := by
  have hst : (handleCallback store payload env).store = store := by
    simp only [handleCallback]
    repeat' split
    all_goals rfl
  refine ⟨hst, ?_⟩
  intro token idx sel lab url h
  rw [hst]
  exact h

/-- A run whose engine succeeds with an in-ceiling file. -/
def exEnv : OrchEnv :=
  ⟨"tmp/vd", Except.ok (.single ⟨"v.mp4", some "mp4"⟩), some 100, false⟩

theorem c8_resolution_pure_witness :
    (handleCallback c1Store (some "dl|tok|1") exEnv).store = c1Store
  ∧ resolveSelection (handleCallback c1Store (some "dl|tok|1") exEnv).store
      "tok" 1 = .chosen "s1" "l1" "u" :=
  ⟨(c8_resolution_pure c1Store (some "dl|tok|1") exEnv).1,
    (c8_resolution_pure c1Store (some "dl|tok|1") exEnv).2
      "tok" 1 "s1" "l1" "u" (by decide)⟩

/-- C10: a callback event without the dl-bar marker, or with fewer than
two bar separators, or whose index part does not parse as hex, only
answers the callback: no message is sent, no download is started, and the
session store is unchanged. -/
theorem c10_malformed_payload_dropped (store : Store)
    (payload : Option String) (env : OrchEnv) :
    (pyStartsWith (payload.getD "") "dl|" = false →
      handleCallback store payload env =
        ⟨store, [Action.answerQuery], false⟩)
  ∧ ((pySplitMax2 (payload.getD "")).length ≠ 3 →
      handleCallback store payload env =
        ⟨store, [Action.answerQuery], false⟩)
  ∧ (∀ a t ih, pySplitMax2 (payload.getD "") = [a, t, ih] →
      pyIntHex ih = none →
      handleCallback store payload env =
        ⟨store, [Action.answerQuery], false⟩) := by
  refine ⟨?_, ?_, ?_⟩
  · intro h
    unfold handleCallback
    rw [if_neg (by simp [h])]
  · intro hlen
    unfold handleCallback
    by_cases hs : pyStartsWith (payload.getD "") "dl|"
    · rw [if_pos hs]
      rcases hm : pySplitMax2 (payload.getD "") with
        _ | ⟨a, _ | ⟨b, _ | ⟨c, _ | ⟨d, rest⟩⟩⟩⟩
      · rfl
      · rfl
      · rfl
      · rw [hm] at hlen
        simp at hlen
      · rfl
    · rw [if_neg hs]
  · intro a t ih hm hnone
    unfold handleCallback
    by_cases hs : pyStartsWith (payload.getD "") "dl|"
    · rw [if_pos hs, hm]
      simp only [hnone]
    · rw [if_neg hs]

theorem c10_malformed_payload_dropped_witness :
    handleCallback c1Store (some "xx") exEnv =
      ⟨c1Store, [Action.answerQuery], false⟩
  ∧ handleCallback c1Store (some "dl|tok") exEnv =
      ⟨c1Store, [Action.answerQuery], false⟩
  ∧ handleCallback c1Store (some "dl|tok|zz") exEnv =
      ⟨c1Store, [Action.answerQuery], false⟩ :=
  ⟨(c10_malformed_payload_dropped c1Store (some "xx") exEnv).1 (by decide),
   (c10_malformed_payload_dropped c1Store (some "dl|tok") exEnv).2.1
     (by decide),
   (c10_malformed_payload_dropped c1Store (some "dl|tok|zz") exEnv).2.2
     "dl" "tok" "zz" (by decide) (by decide)⟩

/-- A run producing an oversized file. -/
def envBig : OrchEnv :=
  ⟨"tmp/vd", Except.ok (.single ⟨"v.mp4", some "mp4"⟩),
    some (50 * 1024 * 1024), false⟩

/-- A run with an in-ceiling file whose upload raises. -/
def envRaise : OrchEnv :=
  ⟨"tmp/vd", Except.ok (.single ⟨"v.mp4", some "mp4"⟩), some 100, true⟩

theorem c3_size_gate_witness :
    (uploadCount (orchestrate "u" "s" "l" envBig).actions = 0
      ∧ Action.rmtree "tmp/vd" ∈ (orchestrate "u" "s" "l" envBig).actions
      ∧ Action.message (oversizedText "l") ∈
          (orchestrate "u" "s" "l" envBig).actions)
  ∧ (uploadCount (orchestrate "u" "s" "l" envRaise).actions = 1
      ∧ Action.rmtree "tmp/vd" ∈ (orchestrate "u" "s" "l" envRaise).actions) :=
  ⟨(c3_size_gate "u" "s" "l" envBig
      ⟨by decide, by decide,
        (by decide : ('/' : Char) ∉ ("v.mp4" : String).data)⟩
      "tmp/vd/v.mp4" "v.mp4" "mp4" (by decide)
      (50 * 1024 * 1024) (by decide)).1 (by decide),
   (c3_size_gate "u" "s" "l" envRaise
      ⟨by decide, by decide,
        (by decide : ('/' : Char) ∉ ("v.mp4" : String).data)⟩
      "tmp/vd/v.mp4" "v.mp4" "mp4" (by decide)
      100 (by decide)).2 (by decide)⟩

/-- A run with an unreadable file size. -/
def envProbeFail : OrchEnv :=
  ⟨"tmp/vd", Except.ok (.single ⟨"v.mp4", some "mp4"⟩), none, false⟩

theorem c7_probe_fail_open_witness :
    uploadCount (orchestrate "u" "s" "l" envProbeFail).actions = 1
  ∧ Action.message (oversizedText "l") ∉
      (orchestrate "u" "s" "l" envProbeFail).actions :=
  c7_probe_fail_open "u" "s" "l" envProbeFail "tmp/vd/v.mp4" "v.mp4" "mp4"
    (by decide) rfl

end Spddwnld
